import Mathlib

/-!
Verification of the `EarlyAllocator` bump allocator from
`arceos/modules/bump_allocator/src/lib.rs`.

Modelling conventions:
* `usize` values are natural numbers; the target is 64-bit, so `USIZE = 2 ^ 64`
  is the number of machine values of a `usize`.
* Rust integer overflow and underflow are program errors (they abort with a
  panic when overflow checks are enabled; with checks disabled the value wraps).
  The model makes every such arithmetic fault, as well as the
  `NonNull::new(new_pos as *mut u8).unwrap()` in `alloc` when `new_pos` is the
  null address, and remainder/division by a zero `PAGE_SIZE`, an explicit
  `panic` outcome, distinct from returning a value or an `AllocError`.
* The const generic `PAGE_SIZE` is passed explicitly as a parameter `PS`.
-/

/-- Number of values of a 64-bit `usize`. -/
def USIZE : Nat := 2 ^ 64

/-- Error type of the `allocator` crate as used by this code:
`NoMemory` is the resource-exhaustion error returned by the byte and page
allocation paths, `InvalidParam` is the invalid-parameter error. -/
inductive AllocError where
  | NoMemory
  | InvalidParam
  deriving DecidableEq

/-- Outcome of an allocator call: a returned value, a returned `AllocError`,
or a Rust panic (arithmetic overflow or underflow under checked arithmetic,
an `Option::unwrap` of `None`, or division by zero). -/
inductive RustResult (α : Type) where
  | ok : α → RustResult α
  | err : AllocError → RustResult α
  | panic : RustResult α
  deriving DecidableEq

/-- State of `EarlyAllocator<PAGE_SIZE>`: the four cursor fields. -/
structure EarlyAllocator where
  start : Nat
  b_pos : Nat
  p_pos : Nat
  «end» : Nat
  deriving DecidableEq

/-- Model of `BaseAllocator::init`: sets `end = start + size`,
`b_pos = start`, `p_pos = end`.  The result is `none` when `start + size`
overflows `usize`. -/
def initAlloc (start size : Nat) : Option EarlyAllocator :=
  if start + size < USIZE then
    some { start := start, b_pos := start, p_pos := start + size, «end» := start + size }
  else none

/-- Bitwise complement of a `usize` value (the Rust `!` operator on `usize`). -/
def complement64 (m : Nat) : Nat := USIZE - 1 - m

/-- Model of `ByteAllocator::alloc`: computes `align_mask = align - 1` and
`new_pos = (b_pos + align_mask) & !align_mask`, fails with `NoMemory` when
`new_pos + size > p_pos`, otherwise commits `b_pos = new_pos + size` and
returns `NonNull::new(new_pos as *mut u8).unwrap()` — which panics when
`new_pos` is the null address `0`. -/
def alloc (s : EarlyAllocator) (size align : Nat) : RustResult (Nat × EarlyAllocator) :=
  if align = 0 then .panic
  else if USIZE ≤ s.b_pos + (align - 1) then .panic
  else
    let new_pos := (s.b_pos + (align - 1)) &&& complement64 (align - 1)
    if USIZE ≤ new_pos + size then .panic
    else if s.p_pos < new_pos + size then .err .NoMemory
    else if new_pos = 0 then .panic
    else .ok (new_pos, { s with b_pos := new_pos + size })

/-- Model of `ByteAllocator::dealloc`: does nothing. -/
def dealloc (s : EarlyAllocator) (_ptr _size _align : Nat) : EarlyAllocator := s

/-- Model of `total_bytes`: `end - start`. -/
def totalBytes (s : EarlyAllocator) : Option Nat :=
  if s.start ≤ s.«end» then some (s.«end» - s.start) else none

/-- Model of `available_bytes`: `p_pos - b_pos`. -/
def availableBytes (s : EarlyAllocator) : Option Nat :=
  if s.b_pos ≤ s.p_pos then some (s.p_pos - s.b_pos) else none

/-- Model of `used_bytes`: `b_pos - start`. -/
def usedBytes (s : EarlyAllocator) : Option Nat :=
  if s.start ≤ s.b_pos then some (s.b_pos - s.start) else none

/-- Model of `usize::is_power_of_two`: true exactly when the argument is
`2 ^ k` for some `k` (see `isPowerOfTwo_iff`). -/
def isPowerOfTwo (n : Nat) : Bool :=
  (List.range (n + 1)).any fun k => n == 2 ^ k

/-- Model of `PageAllocator::alloc_pages`: rejects an `align_pow2` that is not
a multiple of `PAGE_SIZE`, or whose quotient `align_pow2 / PAGE_SIZE` is not a
power of two, with `InvalidParam`; then computes
`p_pos - num_pages * PAGE_SIZE` (checked multiplication and subtraction),
fails with `NoMemory` when the new position is below `b_pos`, otherwise
commits it as `p_pos` and returns it. -/
def allocPages (PS : Nat) (s : EarlyAllocator) (num_pages align_pow2 : Nat) :
    RustResult (Nat × EarlyAllocator) :=
  if PS = 0 then .panic
  else if align_pow2 % PS ≠ 0 then .err .InvalidParam
  else if isPowerOfTwo (align_pow2 / PS) then
    if USIZE ≤ num_pages * PS then .panic
    else if s.p_pos < num_pages * PS then .panic
    else
      let p := s.p_pos - num_pages * PS
      if p < s.b_pos then .err .NoMemory
      else .ok (p, { s with p_pos := p })
  else .err .InvalidParam

/-- Model of `PageAllocator::dealloc_pages`: does nothing. -/
def deallocPages (s : EarlyAllocator) (_pos _num_pages : Nat) : EarlyAllocator := s

/-- Model of `total_pages`: `(end - start) / PAGE_SIZE`. -/
def totalPages (PS : Nat) (s : EarlyAllocator) : Option Nat :=
  if PS ≠ 0 ∧ s.start ≤ s.«end» then some ((s.«end» - s.start) / PS) else none

/-- Model of `used_pages`: `(end - p_pos) / PAGE_SIZE`. -/
def usedPages (PS : Nat) (s : EarlyAllocator) : Option Nat :=
  if PS ≠ 0 ∧ s.p_pos ≤ s.«end» then some ((s.«end» - s.p_pos) / PS) else none

/-- Model of `available_pages`: `p_pos / PAGE_SIZE`. -/
def availablePages (PS : Nat) (s : EarlyAllocator) : Option Nat :=
  if PS ≠ 0 then some (s.p_pos / PS) else none

/-- Model of `BaseAllocator::add_memory`: unconditionally
`Err(AllocError::NoMemory)`, leaving the state untouched. -/
def addMemory (_s : EarlyAllocator) (_start _size : Nat) : RustResult Unit :=
  .err .NoMemory

/-- The specification's `round_up`: round `x` up to the next multiple of `a`. -/
def roundUp (x a : Nat) : Nat := (x + a - 1) / a * a

/-- One allocator call, for reasoning about call sequences. -/
inductive Op where
  | alloc (size align : Nat)
  | allocPages (num_pages align_pow2 : Nat)
  | dealloc (ptr size align : Nat)
  | deallocPages (pos num_pages : Nat)
  | addMemory (start size : Nat)
  deriving DecidableEq

/-- Caller contract of the byte allocator: the alignment of a byte allocation
request is a power of two.  Other calls are unconstrained. -/
def ContractOp : Op → Prop
  | .alloc _ align => ∃ k, align = 2 ^ k
  | _ => True

/-- Execute one call: `none` when the call panics.  An error return leaves the
state unchanged, since the code returns before mutating any field. -/
def step (PS : Nat) (s : EarlyAllocator) : Op → Option EarlyAllocator
  | .alloc size align =>
    match alloc s size align with
    | .ok (_, t) => some t
    | .err _ => some s
    | .panic => none
  | .allocPages n a =>
    match allocPages PS s n a with
    | .ok (_, t) => some t
    | .err _ => some s
    | .panic => none
  | .dealloc p sz a => some (dealloc s p sz a)
  | .deallocPages p n => some (deallocPages s p n)
  | .addMemory a b =>
    match addMemory s a b with
    | .ok _ => some s
    | .err _ => some s
    | .panic => none

/-- Execute a sequence of calls, stopping with `none` on a panic. -/
def run (PS : Nat) : EarlyAllocator → List Op → Option EarlyAllocator
  | s, [] => some s
  | s, op :: ops =>
    match step PS s op with
    | some t => run PS t ops
    | none => none

/-- Execute a sequence of page-allocation requests `(num_pages, align_pow2)`,
collecting the `(address, num_pages)` of each successful allocation in order;
`none` on a panic. -/
def runPages (PS : Nat) : EarlyAllocator → List (Nat × Nat) →
    Option (EarlyAllocator × List (Nat × Nat))
  | s, [] => some (s, [])
  | s, (n, a) :: reqs =>
    match allocPages PS s n a with
    | .ok (addr, t) => (runPages PS t reqs).map fun r => (r.1, (addr, n) :: r.2)
    | .err _ => runPages PS s reqs
    | .panic => none

/-- Execute a sequence of byte-allocation requests `(size, align)`, collecting
the `(address, size, align)` of each successful allocation in order; `none` on
a panic. -/
def runBytes : EarlyAllocator → List (Nat × Nat) →
    Option (EarlyAllocator × List (Nat × Nat × Nat))
  | s, [] => some (s, [])
  | s, (size, align) :: reqs =>
    match alloc s size align with
    | .ok (addr, t) => (runBytes t reqs).map fun r => (r.1, (addr, size, align) :: r.2)
    | .err _ => runBytes s reqs
    | .panic => none

/-- The documented invariant `start ≤ b_pos ≤ p_pos ≤ end`, together with the
fact that the cursors are `usize` values. -/
def CursorInv (s : EarlyAllocator) : Prop :=
  s.start ≤ s.b_pos ∧ s.b_pos ≤ s.p_pos ∧ s.p_pos ≤ s.«end» ∧ s.«end» < USIZE

instance (s : EarlyAllocator) : Decidable (CursorInv s) := by
  unfold CursorInv
  infer_instance

/-! Arithmetic helper lemmas. -/

lemma two_pow_sub_two_pow (k : Nat) (hk : k ≤ 64) :
    2 ^ 64 - 2 ^ k = (2 ^ (64 - k) - 1) * 2 ^ k := by
  have h : 2 ^ (64 - k) * 2 ^ k = 2 ^ 64 := by
    rw [← pow_add]
    congr 1
    omega
  rw [Nat.sub_mul, one_mul, h]

lemma land_complement_pow2 (t k : Nat) (ht : t < 2 ^ 64) (hk : k ≤ 64) :
    t &&& (2 ^ 64 - 2 ^ k) = t / 2 ^ k * 2 ^ k := by
  have hrhs : t / 2 ^ k * 2 ^ k = (t >>> k) <<< k := by
    rw [Nat.shiftRight_eq_div_pow, Nat.shiftLeft_eq]
  have hmask : 2 ^ 64 - 2 ^ k = (2 ^ (64 - k) - 1) <<< k := by
    rw [Nat.shiftLeft_eq, ← two_pow_sub_two_pow k hk]
  apply Nat.eq_of_testBit_eq
  intro i
  rw [Nat.testBit_land, hmask, hrhs, Nat.testBit_shiftLeft, Nat.testBit_shiftLeft,
    Nat.testBit_shiftRight, Nat.testBit_two_pow_sub_one]
  by_cases hki : k ≤ i
  · have hik : k + (i - k) = i := by omega
    rw [hik]
    by_cases hi64 : i < 64
    · have h1 : i - k < 64 - k := by omega
      simp [ge_iff_le, hki, h1]
    · have h2 : t.testBit i = false :=
        Nat.testBit_lt_two_pow (lt_of_lt_of_le ht (Nat.pow_le_pow_right (by norm_num) (by omega)))
      have h3 : ¬ i - k < 64 - k := by omega
      simp [ge_iff_le, hki, h2, h3]
  · simp [ge_iff_le, hki]

lemma le_roundUp (x a : Nat) (ha : 0 < a) : x ≤ roundUp x a := by
  unfold roundUp
  have h1 := Nat.div_add_mod (x + a - 1) a
  have h2 : (x + a - 1) % a < a := Nat.mod_lt _ ha
  rw [Nat.mul_comm]
  omega

lemma dvd_roundUp (x a : Nat) : a ∣ roundUp x a := dvd_mul_left a _

lemma roundUp_zero (a : Nat) (ha : 0 < a) : roundUp 0 a = 0 := by
  unfold roundUp
  rw [Nat.div_eq_of_lt (by omega)]
  simp

lemma isPowerOfTwo_iff (n : Nat) : isPowerOfTwo n = true ↔ ∃ k, n = 2 ^ k := by
  unfold isPowerOfTwo
  rw [List.any_eq_true]
  constructor
  · rintro ⟨k, -, hk⟩
    exact ⟨k, by simpa using hk⟩
  · rintro ⟨k, rfl⟩
    exact ⟨k, List.mem_range.mpr (by have := Nat.lt_two_pow k; omega), by simp⟩

/-- Normal form of `alloc` at a power-of-two alignment: the masked cursor is
the rounded-up candidate. -/
lemma alloc_pow2 (s : EarlyAllocator) (size k : Nat)
    (hb : s.b_pos + (2 ^ k - 1) < USIZE) :
    alloc s size (2 ^ k) =
      if USIZE ≤ roundUp s.b_pos (2 ^ k) + size then .panic
      else if s.p_pos < roundUp s.b_pos (2 ^ k) + size then .err .NoMemory
      else if roundUp s.b_pos (2 ^ k) = 0 then .panic
      else .ok (roundUp s.b_pos (2 ^ k),
        { s with b_pos := roundUp s.b_pos (2 ^ k) + size }) := by
  have hk64 : k ≤ 64 := by
    by_contra hgt
    have h1 : 2 ^ 64 < 2 ^ k := (Nat.pow_lt_pow_iff_right (by norm_num)).mpr (by omega)
    unfold USIZE at hb
    omega
  have hpos : 0 < 2 ^ k := Nat.two_pow_pos k
  have hcomp : complement64 (2 ^ k - 1) = 2 ^ 64 - 2 ^ k := by
    unfold complement64 USIZE
    have h2 : 2 ^ k ≤ 2 ^ 64 := Nat.pow_le_pow_right (by norm_num) hk64
    omega
  have hland : (s.b_pos + (2 ^ k - 1)) &&& complement64 (2 ^ k - 1)
      = roundUp s.b_pos (2 ^ k) := by
    rw [hcomp, land_complement_pow2 _ k (by unfold USIZE at hb; exact hb) hk64]
    unfold roundUp
    congr 2
    omega
  simp only [alloc, hland]
  rw [if_neg (by omega), if_neg (not_le.mpr hb)]

/-- What a successful `alloc` at a power-of-two alignment guarantees. -/
lemma alloc_ok_pow2 (s t : EarlyAllocator) (size addr k : Nat)
    (h : alloc s size (2 ^ k) = .ok (addr, t)) :
    t = { s with b_pos := addr + size } ∧ s.b_pos ≤ addr ∧ (2 ^ k) ∣ addr ∧
      addr + size ≤ s.p_pos := by
  by_cases hb : s.b_pos + (2 ^ k - 1) < USIZE
  · rw [alloc_pow2 s size k hb] at h
    split at h
    · simp at h
    split at h
    · simp at h
    split at h
    · simp at h
    rename_i hpp hne
    rw [RustResult.ok.injEq, Prod.mk.injEq] at h
    obtain ⟨h1, h2⟩ := h
    subst h1
    exact ⟨h2.symm, le_roundUp _ _ (Nat.two_pow_pos k), dvd_roundUp _ _, by omega⟩
  · exfalso
    unfold alloc at h
    rw [if_neg (by have := Nat.two_pow_pos k; omega), if_pos (not_lt.mp hb)] at h
    simp at h

/-- What a successful `allocPages` guarantees. -/
lemma allocPages_ok (PS : Nat) (s t : EarlyAllocator) (n a addr : Nat)
    (h : allocPages PS s n a = .ok (addr, t)) :
    t = { s with p_pos := addr } ∧ addr + n * PS = s.p_pos ∧ s.b_pos ≤ addr := by
  simp only [allocPages] at h
  split at h
  · simp at h
  split at h
  · simp at h
  split at h
  · split at h
    · simp at h
    split at h
    · simp at h
    split at h
    · simp at h
    rename_i hmul hsub hbp
    rw [RustResult.ok.injEq, Prod.mk.injEq] at h
    obtain ⟨h1, h2⟩ := h
    subst h1
    exact ⟨h2.symm, by omega, by omega⟩
  · simp at h

lemma initAlloc_some (start size : Nat) (s : EarlyAllocator)
    (h : initAlloc start size = some s) :
    s = ⟨start, start, start + size, start + size⟩ ∧ start + size < USIZE := by
  unfold initAlloc at h
  split at h
  · rename_i hlt
    rw [Option.some.injEq] at h
    exact ⟨h.symm, hlt⟩
  · simp at h

/-- One executed call preserves the invariant and moves the cursors
monotonically. -/
lemma step_mono (PS : Nat) (s t : EarlyAllocator) (op : Op)
    (hop : ContractOp op) (hs : CursorInv s) (h : step PS s op = some t) :
    CursorInv t ∧ s.b_pos ≤ t.b_pos ∧ t.p_pos ≤ s.p_pos := by
  obtain ⟨s1, s2, s3, s4⟩ := s
  obtain ⟨hs1, hs2, hs3, hs4⟩ := hs
  cases op with
  | alloc size align =>
    obtain ⟨k, rfl⟩ := hop
    cases hcall : alloc ⟨s1, s2, s3, s4⟩ size (2 ^ k) with
    | ok val =>
      obtain ⟨addr, t'⟩ := val
      simp only [step, hcall] at h
      rw [Option.some.injEq] at h
      subst h
      obtain ⟨ht, hle, -, hfit⟩ := alloc_ok_pow2 _ _ _ _ _ hcall
      subst ht
      refine ⟨⟨?_, ?_, ?_, ?_⟩, ?_, ?_⟩ <;> simp_all <;> omega
    | err e =>
      simp only [step, hcall] at h
      rw [Option.some.injEq] at h
      subst h
      exact ⟨⟨hs1, hs2, hs3, hs4⟩, le_refl _, le_refl _⟩
    | panic =>
      simp only [step, hcall] at h
      simp at h
  | allocPages n a =>
    cases hcall : allocPages PS ⟨s1, s2, s3, s4⟩ n a with
    | ok val =>
      obtain ⟨addr, t'⟩ := val
      simp only [step, hcall] at h
      rw [Option.some.injEq] at h
      subst h
      obtain ⟨ht, heq, hle⟩ := allocPages_ok _ _ _ _ _ _ hcall
      subst ht
      refine ⟨⟨?_, ?_, ?_, ?_⟩, ?_, ?_⟩ <;> simp_all <;> omega
    | err e =>
      simp only [step, hcall] at h
      rw [Option.some.injEq] at h
      subst h
      exact ⟨⟨hs1, hs2, hs3, hs4⟩, le_refl _, le_refl _⟩
    | panic =>
      simp only [step, hcall] at h
      simp at h
  | dealloc p sz a =>
    simp only [step, dealloc] at h
    rw [Option.some.injEq] at h
    subst h
    exact ⟨⟨hs1, hs2, hs3, hs4⟩, le_refl _, le_refl _⟩
  | deallocPages p n =>
    simp only [step, deallocPages] at h
    rw [Option.some.injEq] at h
    subst h
    exact ⟨⟨hs1, hs2, hs3, hs4⟩, le_refl _, le_refl _⟩
  | addMemory a b =>
    simp only [step, addMemory] at h
    rw [Option.some.injEq] at h
    subst h
    exact ⟨⟨hs1, hs2, hs3, hs4⟩, le_refl _, le_refl _⟩

/-- A whole executed call sequence preserves the invariant and moves the
cursors monotonically. -/
lemma run_mono (PS : Nat) (ops : List Op) :
    ∀ s t : EarlyAllocator, (∀ op ∈ ops, ContractOp op) → CursorInv s →
      run PS s ops = some t →
      CursorInv t ∧ s.b_pos ≤ t.b_pos ∧ t.p_pos ≤ s.p_pos := by
  induction ops with
  | nil =>
    intro s t _ hs h
    simp only [run, Option.some.injEq] at h
    subst h
    exact ⟨hs, le_refl _, le_refl _⟩
  | cons op ops ih =>
    intro s t hall hs h
    simp only [run] at h
    cases hstep : step PS s op with
    | none => rw [hstep] at h; simp at h
    | some u =>
      rw [hstep] at h
      obtain ⟨hu, hb, hp⟩ := step_mono PS s u op (hall op (by simp)) hs hstep
      obtain ⟨ht, hb', hp'⟩ := ih u t (fun op' hop' => hall op' (by simp [hop'])) hu h
      exact ⟨ht, le_trans hb hb', le_trans hp' hp⟩

lemma run_append (PS : Nat) (l1 l2 : List Op) (s : EarlyAllocator) :
    run PS s (l1 ++ l2) = (run PS s l1).bind fun t => run PS t l2 := by
  induction l1 generalizing s with
  | nil => simp [run]
  | cons op l1 ih =>
    simp only [List.cons_append, run]
    cases step PS s op <;> simp [ih]

/-- Invariants of a collected page-allocation sequence: each success fits
under the starting page cursor, successes are mutually disjoint and
descending, and page-size divisibility of the cursor is maintained. -/
lemma runPages_spec (PS : Nat) (reqs : List (Nat × Nat)) :
    ∀ s t : EarlyAllocator, ∀ res : List (Nat × Nat),
      runPages PS s reqs = some (t, res) →
      (∀ p ∈ res, p.1 + p.2 * PS ≤ s.p_pos ∧ t.p_pos ≤ p.1) ∧
      res.Pairwise (fun x y => y.1 + y.2 * PS ≤ x.1) ∧
      (PS ∣ s.p_pos → ∀ p ∈ res, PS ∣ p.1) ∧
      t.p_pos ≤ s.p_pos ∧ (PS ∣ s.p_pos → PS ∣ t.p_pos) := by
  induction reqs with
  | nil =>
    intro s t res h
    simp only [runPages, Option.some.injEq, Prod.mk.injEq] at h
    obtain ⟨rfl, rfl⟩ := h
    simp
  | cons r reqs ih =>
    intro s t res h
    obtain ⟨n, a⟩ := r
    simp only [runPages] at h
    cases hcall : allocPages PS s n a with
    | ok val =>
      obtain ⟨addr, u⟩ := val
      simp only [hcall] at h
      cases hrec : runPages PS u reqs with
      | none => rw [hrec] at h; simp at h
      | some pr =>
        obtain ⟨t', res'⟩ := pr
        rw [hrec] at h
        simp only [Option.map_some', Option.some.injEq, Prod.mk.injEq] at h
        obtain ⟨rfl, rfl⟩ := h
        obtain ⟨hu, heq, hble⟩ := allocPages_ok _ _ _ _ _ _ hcall
        subst hu
        obtain ⟨ih1, ih2, ih3, ih4, ih5⟩ := ih _ _ _ hrec
        simp only at ih1 ih3 ih4 ih5
        have haddr : addr ≤ s.p_pos := by omega
        refine ⟨?_, ?_, ?_, ?_, ?_⟩
        · intro p hp
          rcases List.mem_cons.mp hp with rfl | hp
          · exact ⟨show addr + n * PS ≤ s.p_pos by omega, ih4⟩
          · obtain ⟨h1, h2⟩ := ih1 p hp
            exact ⟨le_trans h1 haddr, h2⟩
        · refine List.Pairwise.cons ?_ ih2
          intro y hy
          exact (ih1 y hy).1
        · intro hd p hp
          have hda : PS ∣ addr := by
            have h1 : PS ∣ n * PS := dvd_mul_left PS n
            have h2 := Nat.dvd_sub' hd h1
            rwa [show s.p_pos - n * PS = addr by omega] at h2
          rcases List.mem_cons.mp hp with rfl | hp
          · exact hda
          · exact ih3 hda p hp
        · exact le_trans ih4 haddr
        · intro hd
          apply ih5
          have h1 : PS ∣ n * PS := dvd_mul_left PS n
          have h2 := Nat.dvd_sub' hd h1
          rwa [show s.p_pos - n * PS = addr by omega] at h2
    | err e =>
      simp only [hcall] at h
      exact ih s t res h
    | panic =>
      simp only [hcall] at h
      simp at h

/-- Invariants of a collected byte-allocation sequence under the power-of-two
alignment contract: successes sit above the starting byte cursor, are mutually
disjoint and ascending, and are aligned. -/
lemma runBytes_spec (reqs : List (Nat × Nat)) :
    ∀ s t : EarlyAllocator, ∀ res : List (Nat × Nat × Nat),
      (∀ r ∈ reqs, ∃ k, (r : Nat × Nat).2 = 2 ^ k) →
      runBytes s reqs = some (t, res) →
      (∀ r ∈ res, s.b_pos ≤ r.1 ∧ r.1 + r.2.1 ≤ t.b_pos) ∧
      res.Pairwise (fun x y => x.1 + x.2.1 ≤ y.1) ∧
      (∀ r ∈ res, r.1 % r.2.2 = 0) ∧
      s.b_pos ≤ t.b_pos := by
  induction reqs with
  | nil =>
    intro s t res _ h
    simp only [runBytes, Option.some.injEq, Prod.mk.injEq] at h
    obtain ⟨rfl, rfl⟩ := h
    simp
  | cons r reqs ih =>
    intro s t res hpow h
    obtain ⟨size, align⟩ := r
    obtain ⟨k, hk⟩ := hpow (size, align) (by simp)
    simp only at hk
    subst hk
    simp only [runBytes] at h
    cases hcall : alloc s size (2 ^ k) with
    | ok val =>
      obtain ⟨addr, u⟩ := val
      simp only [hcall] at h
      cases hrec : runBytes u reqs with
      | none => rw [hrec] at h; simp at h
      | some pr =>
        obtain ⟨t', res'⟩ := pr
        rw [hrec] at h
        simp only [Option.map_some', Option.some.injEq, Prod.mk.injEq] at h
        obtain ⟨rfl, rfl⟩ := h
        obtain ⟨hu, hle, hdvd, hfit⟩ := alloc_ok_pow2 _ _ _ _ _ hcall
        subst hu
        obtain ⟨ih1, ih2, ih3, ih4⟩ :=
          ih _ _ _ (fun r hr => hpow r (by simp [hr])) hrec
        simp only at ih1 ih4
        refine ⟨?_, ?_, ?_, ?_⟩
        · intro p hp
          rcases List.mem_cons.mp hp with rfl | hp
          · exact ⟨hle, show addr + size ≤ t'.b_pos by omega⟩
          · obtain ⟨h1, h2⟩ := ih1 p hp
            exact ⟨by omega, h2⟩
        · refine List.Pairwise.cons ?_ ih2
          intro y hy
          exact (ih1 y hy).1
        · intro p hp
          rcases List.mem_cons.mp hp with rfl | hp
          · exact Nat.mod_eq_zero_of_dvd hdvd
          · exact ih3 p hp
        · omega
    | err e =>
      simp only [hcall] at h
      exact ih s t res (fun r hr => hpow r (by simp [hr])) h
    | panic =>
      simp only [hcall] at h
      simp at h

/-- Derived bound: when the rounded-up candidate is nonzero and
`candidate + size` fits in a `usize`, the intermediate sum
`b_pos + align_mask` fits as well. -/
lemma roundUp_bound (b k size : Nat) (hne : roundUp b (2 ^ k) ≠ 0)
    (hfit : roundUp b (2 ^ k) + size < USIZE) :
    b + (2 ^ k - 1) < USIZE := by
  have hpos : 0 < 2 ^ k := Nat.two_pow_pos k
  have hleb : b ≤ roundUp b (2 ^ k) := le_roundUp _ _ hpos
  have hdvd : 2 ^ k ∣ roundUp b (2 ^ k) := dvd_roundUp _ _
  have hge : 2 ^ k ≤ roundUp b (2 ^ k) := Nat.le_of_dvd (Nat.pos_of_ne_zero hne) hdvd
  have hklt : 2 ^ k < 2 ^ 64 := by unfold USIZE at hfit; omega
  have hk64 : k < 64 := (Nat.pow_lt_pow_iff_right (by norm_num)).mp hklt
  have hdvd64 : 2 ^ k ∣ 2 ^ 64 := pow_dvd_pow 2 (le_of_lt hk64)
  have hsub : 2 ^ k ∣ 2 ^ 64 - roundUp b (2 ^ k) := Nat.dvd_sub' hdvd64 hdvd
  have hpos2 : 0 < 2 ^ 64 - roundUp b (2 ^ k) := by unfold USIZE at hfit; omega
  have hle2 : 2 ^ k ≤ 2 ^ 64 - roundUp b (2 ^ k) := Nat.le_of_dvd hpos2 hsub
  unfold USIZE
  omega

/-- Claim C1 (counterexample): on the Active state reached by
`init(0, 8192)`, the request `size = 8, align = 8` is in the claim's success
branch (`round_up(b_pos, 8) + 8 = 8 ≤ p_pos`), so the claim demands that
`alloc` return the candidate address `0`; the code instead panics, because it
unwraps `NonNull::new(0 as *mut u8)`, which is `None`. -/
theorem claim_C1_counterexample :
    alloc ⟨0, 0, 8192, 8192⟩ 8 8 = .panic ∧
    alloc ⟨0, 0, 8192, 8192⟩ 8 8 ≠
      .ok (roundUp 0 8, ⟨0, roundUp 0 8 + 8, 8192, 8192⟩) ∧
    roundUp 0 8 + 8 ≤ 8192 := by decide

/-- Claim C1 (amended): for every Active state and byte request with a
power-of-two alignment, provided the rounded-up candidate is a nonzero address
and `candidate + size` does not overflow `usize`, `alloc` fails with
`NoMemory` (ResourceExhausted) exactly when `candidate + size > p_pos`, and
otherwise commits `b_pos = candidate + size`, leaves `start`, `end` and
`p_pos` unchanged, and returns `candidate = round_up(b_pos, align)`. -/
theorem claim_C1_amended (s : EarlyAllocator) (size align k : Nat)
    (_hA : CursorInv s) (hk : align = 2 ^ k)
    (hne : roundUp s.b_pos align ≠ 0)
    (hfit : roundUp s.b_pos align + size < USIZE) :
    (alloc s size align = .err .NoMemory ↔ s.p_pos < roundUp s.b_pos align + size) ∧
    (roundUp s.b_pos align + size ≤ s.p_pos →
      alloc s size align =
        .ok (roundUp s.b_pos align,
          { start := s.start, b_pos := roundUp s.b_pos align + size,
            p_pos := s.p_pos, «end» := s.«end» })) := by
  subst hk
  have hb := roundUp_bound s.b_pos k size hne hfit
  rw [alloc_pow2 s size k hb]
  rw [if_neg (not_le.mpr hfit)]
  constructor
  · constructor
    · intro h
      by_cases hpp : s.p_pos < roundUp s.b_pos (2 ^ k) + size
      · exact hpp
      · rw [if_neg hpp, if_neg hne] at h
        simp at h
    · intro hpp
      rw [if_pos hpp]
  · intro hle
    rw [if_neg (not_lt.mpr hle), if_neg hne]

/-- Claim C1 (witness): the amended characterisation applied to a concrete
Active state on the region `[4096, 8192)`. -/
theorem claim_C1_witness :
    (alloc ⟨4096, 4096, 8192, 8192⟩ 8 8 = .err .NoMemory ↔
      (8192 : Nat) < roundUp 4096 8 + 8) ∧
    (roundUp 4096 8 + 8 ≤ 8192 →
      alloc ⟨4096, 4096, 8192, 8192⟩ 8 8 =
        .ok (roundUp 4096 8, ⟨4096, roundUp 4096 8 + 8, 8192, 8192⟩)) :=
  claim_C1_amended ⟨4096, 4096, 8192, 8192⟩ 8 8 3 (by decide) (by norm_num)
    (by decide) (by decide)

/-- Claim C2 (counterexample): on the Active state reached by `init(0, 8192)`,
the request `count = 3, align = 4096` has a valid alignment and a
mathematical candidate `p_pos - count*PAGE_SIZE < 0 ≤ b_pos`, so the claim
demands a ResourceExhausted failure; the code instead evaluates
`self.p_pos - num_pages * Self::PAGE_SIZE`, which underflows `usize`
(a panic under checked arithmetic; a wrap to `2^64 - 4096` and a bogus
success in release builds). -/
theorem claim_C2_counterexample :
    allocPages 4096 ⟨0, 0, 8192, 8192⟩ 3 4096 = .panic ∧
    allocPages 4096 ⟨0, 0, 8192, 8192⟩ 3 4096 ≠ .err .NoMemory ∧
    8192 < 3 * 4096 := by decide

/-- Claim C2 (amended): for every Active state, provided
`count * PAGE_SIZE ≤ p_pos` (no `usize` underflow), `allocate_pages` fails
with `InvalidParam` exactly when `align` is not a multiple of `PAGE_SIZE` or
`align / PAGE_SIZE` is not a power of two; with a valid `align` it fails with
`NoMemory` (ResourceExhausted) exactly when the candidate
`p_pos - count*PAGE_SIZE` is below `b_pos`, and otherwise commits the
candidate as `p_pos` and returns it, leaving the other fields unchanged. -/
theorem claim_C2_amended (PS : Nat) (s : EarlyAllocator) (count align : Nat)
    (hA : CursorInv s) (hPS : 0 < PS) (hfit : count * PS ≤ s.p_pos) :
    (allocPages PS s count align = .err .InvalidParam ↔
      (align % PS ≠ 0 ∨ ¬ ∃ k, align / PS = 2 ^ k)) ∧
    (align % PS = 0 → (∃ k, align / PS = 2 ^ k) →
      ((allocPages PS s count align = .err .NoMemory ↔
          s.p_pos - count * PS < s.b_pos) ∧
       (s.b_pos ≤ s.p_pos - count * PS →
         allocPages PS s count align =
           .ok (s.p_pos - count * PS,
             { start := s.start, b_pos := s.b_pos, p_pos := s.p_pos - count * PS,
               «end» := s.«end» })))) := by
  obtain ⟨h1, h2, h3, h4⟩ := hA
  have hmul : count * PS < USIZE := by omega
  simp only [allocPages]
  rw [if_neg (by omega)]
  by_cases ha : align % PS = 0
  · rw [if_neg (by simp [ha])]
    by_cases hp : isPowerOfTwo (align / PS)
    · rw [if_pos hp, if_neg (not_le.mpr hmul), if_neg (not_lt.mpr hfit)]
      constructor
      · constructor
        · intro h
          exfalso
          revert h
          split <;> simp
        · intro hcontra
          exfalso
          rcases hcontra with h | h
          · exact h ha
          · exact h ((isPowerOfTwo_iff _).mp hp)
      · intro _ _
        constructor
        · constructor
          · intro h
            by_cases hbp : s.p_pos - count * PS < s.b_pos
            · exact hbp
            · rw [if_neg hbp] at h
              simp at h
          · intro hbp
            rw [if_pos hbp]
        · intro hle
          rw [if_neg (not_lt.mpr hle)]
    · rw [if_neg hp]
      constructor
      · constructor
        · intro _
          right
          intro hex
          exact hp ((isPowerOfTwo_iff _).mpr hex)
        · intro _
          rfl
      · intro _ hex
        exact absurd ((isPowerOfTwo_iff _).mpr hex) hp
  · rw [if_pos (by simp [ha])]
    constructor
    · constructor
      · intro _
        left
        exact ha
      · intro _
        rfl
    · intro h
      exact absurd h ha

/-- Claim C2 (witness): the amended characterisation applied to the Active
state reached by `init(0, 8192)` with `count = 1, align = 4096`. -/
theorem claim_C2_witness :
    (allocPages 4096 ⟨0, 0, 8192, 8192⟩ 1 4096 = .err .InvalidParam ↔
      ((4096 : Nat) % 4096 ≠ 0 ∨ ¬ ∃ k, (4096 : Nat) / 4096 = 2 ^ k)) ∧
    ((4096 : Nat) % 4096 = 0 → (∃ k, (4096 : Nat) / 4096 = 2 ^ k) →
      ((allocPages 4096 ⟨0, 0, 8192, 8192⟩ 1 4096 = .err .NoMemory ↔
          (8192 : Nat) - 1 * 4096 < 0) ∧
       ((0 : Nat) ≤ 8192 - 1 * 4096 →
         allocPages 4096 ⟨0, 0, 8192, 8192⟩ 1 4096 =
           .ok (8192 - 1 * 4096, ⟨0, 0, 8192 - 1 * 4096, 8192⟩)))) :=
  claim_C2_amended 4096 ⟨0, 0, 8192, 8192⟩ 1 4096 (by decide) (by decide) (by decide)

/-- Claim C3: starting from any `init(start, size)`, after any two prefixes
of a sequence of calls obeying the byte-allocation caller contract, the
invariant `start ≤ b_pos ≤ p_pos ≤ end` holds at both observable points,
`b_pos` is monotonically non-decreasing and `p_pos` monotonically
non-increasing between them.  A call whose arithmetic panics produces no
observable state (the run stops), and an error return leaves the state
unchanged. -/
theorem claim_C3_invariant_monotonic (PS start size i j : Nat)
    (s₀ u v : EarlyAllocator) (ops : List Op)
    (hinit : initAlloc start size = some s₀)
    (hcontract : ∀ op ∈ ops, ContractOp op)
    (hij : i ≤ j)
    (hu : run PS s₀ (ops.take i) = some u)
    (hv : run PS s₀ (ops.take j) = some v) :
    CursorInv u ∧ CursorInv v ∧ u.b_pos ≤ v.b_pos ∧ v.p_pos ≤ u.p_pos := by
  obtain ⟨rfl, hlt⟩ := initAlloc_some _ _ _ hinit
  have hs₀ : CursorInv ⟨start, start, start + size, start + size⟩ :=
    ⟨le_refl _, Nat.le_add_right _ _, le_refl _, hlt⟩
  have hcu : ∀ op ∈ ops.take i, ContractOp op :=
    fun op hop => hcontract op (List.take_subset _ _ hop)
  obtain ⟨hIu, -, -⟩ := run_mono PS _ _ u hcu hs₀ hu
  have hdecomp : List.take j ops = List.take i ops ++ List.take (j - i) (List.drop i ops) := by
    conv_lhs => rw [show j = i + (j - i) by omega]
    exact List.take_add ops i (j - i)
  rw [hdecomp, run_append, hu] at hv
  simp only [Option.some_bind] at hv
  have hcv : ∀ op ∈ List.take (j - i) (List.drop i ops), ContractOp op :=
    fun op hop => hcontract op (List.drop_subset _ _ (List.take_subset _ _ hop))
  obtain ⟨hIv, hb, hp⟩ := run_mono PS _ _ v hcv hIu hv
  exact ⟨hIu, hIv, hb, hp⟩

/-- Claim C3 (witness): the invariant and monotonicity along the prefixes of
length 1 and 2 of a concrete call sequence after `init(4096, 4096)`. -/
theorem claim_C3_witness :
    CursorInv ⟨4096, 4104, 8192, 8192⟩ ∧ CursorInv ⟨4096, 4104, 8192, 8192⟩ ∧
    (4104 : Nat) ≤ 4104 ∧ (8192 : Nat) ≤ 8192 :=
  claim_C3_invariant_monotonic 4096 4096 4096 1 2 ⟨4096, 4096, 8192, 8192⟩
    ⟨4096, 4104, 8192, 8192⟩ ⟨4096, 4104, 8192, 8192⟩
    [.alloc 8 8, .allocPages 1 4096]
    (by decide)
    (by
      intro op hop
      rcases List.mem_cons.mp hop with rfl | hop
      · exact ⟨3, rfl⟩
      · rcases List.mem_cons.mp hop with rfl | hop
        · trivial
        · cases hop)
    (by omega)
    (by decide)
    (by decide)

/-- Claim C4 (code bug): the code can panic in the Active state under the
stated caller contract.  On the region `[0, 8192)`: the byte request
`size = 8, align = 8` — the specification's own concrete scenario, which the
claim says returns address `0` — reaches `NonNull::new(0 as *mut u8).unwrap()`
and panics; and the page request `count = 3, align = 4096`, for which the
claim demands ResourceExhausted, underflows in
`self.p_pos - num_pages * Self::PAGE_SIZE` instead of reporting an error. -/
theorem claim_C4_code_bug :
    alloc ⟨0, 0, 8192, 8192⟩ 8 8 = .panic ∧
    allocPages 4096 ⟨0, 0, 8192, 8192⟩ 3 4096 = .panic := by decide

/-- Claim C5 (counterexample): `add_memory` does fail on every argument, but
the error it returns is `AllocError::NoMemory` — the very same kind the byte
allocator reports for resource exhaustion (shown here on an exhausted byte
request) — not an Unsupported kind distinct from ResourceExhausted. -/
theorem claim_C5_counterexample :
    addMemory ⟨0, 0, 8192, 8192⟩ 8192 4096 = .err .NoMemory ∧
    alloc ⟨0, 0, 8192, 8192⟩ 9000 1 = .err .NoMemory := by decide

/-- Claim C5 (amended): for every state and region argument, `add_memory`
always fails, and the error is `NoMemory` — the ResourceExhausted kind, not a
distinct Unsupported kind. -/
theorem claim_C5_amended (s : EarlyAllocator) (start size : Nat) :
    addMemory s start size = .err .NoMemory := rfl

/-- Claim C6 (counterexample): after `init(0, 8292)` — a region whose end is
not a multiple of `PAGE_SIZE = 4096` — a successful 1-page allocation returns
the address `4196`, which is not a multiple of `PAGE_SIZE`. -/
theorem claim_C6_counterexample :
    initAlloc 0 8292 = some ⟨0, 0, 8292, 8292⟩ ∧
    runPages 4096 ⟨0, 0, 8292, 8292⟩ [(1, 4096)] =
      some (⟨0, 0, 4196, 8292⟩, [(4196, 1)]) ∧
    ¬ (4096 : Nat) ∣ 4196 := by decide

/-- Claim C6 (amended): for every sequence of page-allocation requests after
`init(start, size)`, the successful allocations `(address, count)` are
pairwise non-overlapping — each later run `[a', a' + c'*PAGE_SIZE)` lies
entirely below each earlier address — and the addresses descend monotonically;
and when `start + size` (the region's end) is a multiple of `PAGE_SIZE`,
every returned address is a multiple of `PAGE_SIZE`. -/
theorem claim_C6_page_runs (PS start size : Nat) (s₀ t : EarlyAllocator)
    (reqs res : List (Nat × Nat))
    (hinit : initAlloc start size = some s₀)
    (hrun : runPages PS s₀ reqs = some (t, res)) :
    res.Pairwise (fun x y => y.1 + y.2 * PS ≤ x.1) ∧
    res.Pairwise (fun x y => y.1 ≤ x.1) ∧
    (PS ∣ start + size → ∀ p ∈ res, PS ∣ p.1) := by
  obtain ⟨rfl, -⟩ := initAlloc_some _ _ _ hinit
  obtain ⟨h1, h2, h3, -, -⟩ := runPages_spec PS reqs _ _ _ hrun
  refine ⟨h2, h2.imp (fun h => by omega), ?_⟩
  intro hd
  exact h3 hd

/-- Claim C6 (witness): the amended statement applied to two 1-page
allocations after `init(0, 8192)`, which return `4096` and then `0`. -/
theorem claim_C6_witness :
    ([(4096, 1), (0, 1)] : List (Nat × Nat)).Pairwise
      (fun x y => y.1 + y.2 * 4096 ≤ x.1) ∧
    ([(4096, 1), (0, 1)] : List (Nat × Nat)).Pairwise (fun x y => y.1 ≤ x.1) ∧
    ((4096 : Nat) ∣ 0 + 8192 →
      ∀ p ∈ ([(4096, 1), (0, 1)] : List (Nat × Nat)), (4096 : Nat) ∣ p.1) :=
  claim_C6_page_runs 4096 0 8192 ⟨0, 0, 8192, 8192⟩ ⟨0, 0, 0, 8192⟩
    [(1, 4096), (1, 4096)] [(4096, 1), (0, 1)] (by decide) (by decide)

/-- Claim C7: for every sequence of byte-allocation requests, each with a
power-of-two alignment, the successful allocations `(address, size, align)`
have pairwise non-overlapping intervals `[address, address + size)` — each
earlier interval ends at or below each later address — and every address
satisfies `address % align = 0`. -/
theorem claim_C7_byte_runs (s t : EarlyAllocator) (reqs : List (Nat × Nat))
    (res : List (Nat × Nat × Nat))
    (hpow : ∀ r ∈ reqs, ∃ k, (r : Nat × Nat).2 = 2 ^ k)
    (hrun : runBytes s reqs = some (t, res)) :
    res.Pairwise (fun x y => x.1 + x.2.1 ≤ y.1) ∧
    (∀ r ∈ res, r.1 % r.2.2 = 0) := by
  obtain ⟨-, h2, h3, -⟩ := runBytes_spec reqs s t res hpow hrun
  exact ⟨h2, h3⟩

/-- Claim C7 (witness): the statement applied to the requests
`(8, 8), (16, 4)` from the Active state of region `[4096, 8192)`. -/
theorem claim_C7_witness :
    ([(4096, 8, 8), (4104, 16, 4)] : List (Nat × Nat × Nat)).Pairwise
      (fun x y => x.1 + x.2.1 ≤ y.1) ∧
    (∀ r ∈ ([(4096, 8, 8), (4104, 16, 4)] : List (Nat × Nat × Nat)),
      r.1 % r.2.2 = 0) :=
  claim_C7_byte_runs ⟨4096, 4096, 8192, 8192⟩ ⟨4096, 4120, 8192, 8192⟩
    [(8, 8), (16, 4)] [(4096, 8, 8), (4104, 16, 4)]
    (by
      intro r hr
      rcases List.mem_cons.mp hr with rfl | hr
      · exact ⟨3, rfl⟩
      · rcases List.mem_cons.mp hr with rfl | hr
        · exact ⟨2, rfl⟩
        · cases hr)
    (by decide)

/-- Claim C8: at every state reachable from `init(start, size)` by a call
sequence obeying the caller contract, the accounting queries return exactly
the documented formulas over the current cursors: `end - start`,
`b_pos - start`, `p_pos - b_pos`, `(end - start) / PAGE_SIZE`,
`(end - p_pos) / PAGE_SIZE` and `p_pos / PAGE_SIZE` (the raw quotient counted
from address zero). -/
theorem claim_C8_accounting (PS start size : Nat) (s₀ s : EarlyAllocator)
    (ops : List Op)
    (hPS : 0 < PS)
    (hinit : initAlloc start size = some s₀)
    (hcontract : ∀ op ∈ ops, ContractOp op)
    (hrun : run PS s₀ ops = some s) :
    totalBytes s = some (s.«end» - s.start) ∧
    usedBytes s = some (s.b_pos - s.start) ∧
    availableBytes s = some (s.p_pos - s.b_pos) ∧
    totalPages PS s = some ((s.«end» - s.start) / PS) ∧
    usedPages PS s = some ((s.«end» - s.p_pos) / PS) ∧
    availablePages PS s = some (s.p_pos / PS) := by
  obtain ⟨rfl, hlt⟩ := initAlloc_some _ _ _ hinit
  have hs₀ : CursorInv ⟨start, start, start + size, start + size⟩ :=
    ⟨le_refl _, Nat.le_add_right _ _, le_refl _, hlt⟩
  obtain ⟨⟨h1, h2, h3, h4⟩, -, -⟩ := run_mono PS ops _ s hcontract hs₀ hrun
  unfold totalBytes usedBytes availableBytes totalPages usedPages availablePages
  rw [if_pos (by omega : s.start ≤ s.«end»), if_pos h1, if_pos h2,
    if_pos ⟨by omega, by omega⟩, if_pos ⟨by omega, h3⟩, if_pos (by omega)]
  exact ⟨rfl, rfl, rfl, rfl, rfl, rfl⟩

/-- Claim C8 (witness): the accounting identities at the state reached from
`init(0, 8192)` by one successful 1-page allocation. -/
theorem claim_C8_witness :
    totalBytes ⟨0, 0, 4096, 8192⟩ = some 8192 ∧
    usedBytes ⟨0, 0, 4096, 8192⟩ = some 0 ∧
    availableBytes ⟨0, 0, 4096, 8192⟩ = some 4096 ∧
    totalPages 4096 ⟨0, 0, 4096, 8192⟩ = some 2 ∧
    usedPages 4096 ⟨0, 0, 4096, 8192⟩ = some 1 ∧
    availablePages 4096 ⟨0, 0, 4096, 8192⟩ = some 1 :=
  claim_C8_accounting 4096 0 8192 ⟨0, 0, 8192, 8192⟩ ⟨0, 0, 4096, 8192⟩
    [.allocPages 1 4096] (by decide) (by decide)
    (by
      intro op hop
      rcases List.mem_cons.mp hop with rfl | hop
      · trivial
      · cases hop)
    (by decide)

/-- Claim C9: `dealloc` and `dealloc_pages` leave the entire allocator state
unchanged for every argument, hence no accounting query value changes across
them, and repeating a call changes nothing. -/
theorem claim_C9_dealloc_noop (s : EarlyAllocator)
    (PS ptr size align pos num : Nat) :
    dealloc s ptr size align = s ∧
    deallocPages s pos num = s ∧
    dealloc (dealloc s ptr size align) ptr size align = dealloc s ptr size align ∧
    deallocPages (deallocPages s pos num) pos num = deallocPages s pos num ∧
    totalBytes (dealloc s ptr size align) = totalBytes s ∧
    usedBytes (dealloc s ptr size align) = usedBytes s ∧
    availableBytes (dealloc s ptr size align) = availableBytes s ∧
    totalPages PS (deallocPages s pos num) = totalPages PS s ∧
    usedPages PS (deallocPages s pos num) = usedPages PS s ∧
    availablePages PS (deallocPages s pos num) = availablePages PS s :=
  ⟨rfl, rfl, rfl, rfl, rfl, rfl, rfl, rfl, rfl, rfl⟩

/-- Claim C10: on every Active state, a zero-count page allocation with a
valid alignment (a multiple of `PAGE_SIZE` whose quotient is a power of two)
succeeds, returns the current `p_pos`, and leaves the state unchanged — so
two consecutive such calls return the same address. -/
theorem claim_C10_zero_count (PS : Nat) (s : EarlyAllocator) (align : Nat)
    (hA : CursorInv s) (hPS : 0 < PS)
    (halign : align % PS = 0) (hpow : ∃ k, align / PS = 2 ^ k) :
    allocPages PS s 0 align = .ok (s.p_pos, s) := by
  obtain ⟨h1, h2, h3, h4⟩ := hA
  simp only [allocPages, Nat.zero_mul, Nat.sub_zero]
  rw [if_neg (by omega), if_neg (by simp [halign]),
    if_pos ((isPowerOfTwo_iff _).mpr hpow),
    if_neg (by have := Nat.two_pow_pos 64; unfold USIZE; omega),
    if_neg (by omega), if_neg (not_lt.mpr h2)]

/-- Claim C10 (witness): after `init(0, 8192)` and one successful 1-page
allocation (which returned `4096`), a zero-count allocation returns `4096` —
the base of the previously returned non-empty run — and leaves the state
unchanged. -/
theorem claim_C10_witness :
    allocPages 4096 ⟨0, 0, 4096, 8192⟩ 0 4096 = .ok (4096, ⟨0, 0, 4096, 8192⟩) :=
  claim_C10_zero_count 4096 ⟨0, 0, 4096, 8192⟩ 4096 (by decide) (by decide)
    (by decide) ⟨0, by decide⟩
